import Mathlib

/-!
Verification of the incremental JSON-emission engine exercised by
`src/suites/selftest/ts/tools/json.c`.

The writer itself (`te_json_*`, `te_kvpair_*`) is declared in `te_json.h` /
`te_kvpair.h` and implemented outside this tree; only the self-test that
fixes its observable behaviour is present.  The writer is therefore
modelled from the specification (sections 3, 4 and 7 of the design
document) and validated against the concrete input/output vectors of the
self-test, which are reproduced faithfully below.
-/

/-- Modelled from the spec: the kind of a container frame (array or object)
on the writer's nesting stack. -/
inductive TeJsonKind where
  | array
  | object
deriving DecidableEq, Repr

/-- Modelled from the spec: one container frame of the nesting stack.
`pending` is the pending-separator flag (the next emitted element needs a
preceding comma); `expectKey` is the expect-key flag, meaningful inside an
object (true when the next token must be a key). -/
structure TeJsonLevel where
  kind : TeJsonKind
  pending : Bool
  expectKey : Bool
deriving DecidableEq, Repr

/-- Modelled from the spec: the writer context `te_json_ctx_t`: the output
buffer, the stack of container frames (head = innermost frame), and an
error flag recording that `te_json_end` was called with an empty stack
(the InvalidNesting condition detected at the offending call). -/
structure TeJsonCtx where
  out : String
  stack : List TeJsonLevel
  bad : Bool
deriving DecidableEq, Repr

/-- Modelled from the spec: a fresh writer context bound to an empty target
buffer (`TE_JSON_INIT_STR` on a fresh `te_string`). -/
def TE_JSON_INIT_STR : TeJsonCtx := ⟨"", [], false⟩

/-- Modelled from the spec: the nesting depth (`current_level` field of the
context checked by `check_json`). -/
def current_level (ctx : TeJsonCtx) : Nat := ctx.stack.length

/-- Modelled from the spec: the separator emitted before an element: a comma
exactly when the pending-separator flag of the current (innermost) frame is
set; nothing at top level. -/
def sepOf (stack : List TeJsonLevel) : String :=
  match stack with
  | [] => ""
  | f :: _ => if f.pending then "," else ""

/-- Modelled from the spec: after a value is completed in the current frame,
its pending-separator flag is set and, for an object, the next expected
token is a key again. -/
def markValueDone (stack : List TeJsonLevel) : List TeJsonLevel :=
  match stack with
  | [] => []
  | f :: rest => ⟨f.kind, true, true⟩ :: rest

/-- Modelled from the spec: emit one complete scalar value: separator if
pending, then the payload; then mark the value as done in the current
frame. -/
def te_json_append_value (ctx : TeJsonCtx) (payload : String) : TeJsonCtx :=
  { ctx with out := ctx.out ++ sepOf ctx.stack ++ payload,
             stack := markValueDone ctx.stack }

/-- Lowercase hexadecimal digit for a value below 16. -/
def hexDigit (n : Nat) : Char :=
  if n < 10 then Char.ofNat (48 + n) else Char.ofNat (87 + n)

/-- Four lowercase hex digits, zero-padded, of a code point. -/
def hex4 (n : Nat) : String :=
  String.mk [hexDigit (n / 4096 % 16), hexDigit (n / 256 % 16),
             hexDigit (n / 16 % 16), hexDigit (n % 16)]

/-- Modelled from the spec: the escaping of one character of emitted string
content: the five short escapes, `\\`, `\/`, `\"`, the `\u00XX` escape for
the other characters below 0x20 and for 0x7F, and pass-through otherwise. -/
def te_json_escape_char (c : Char) : String :=
  if c = '\x08' then "\\b"
  else if c = '\x0c' then "\\f"
  else if c = '\n' then "\\n"
  else if c = '\x0d' then "\\r"
  else if c = '\t' then "\\t"
  else if c = '\\' then "\\\\"
  else if c = '/' then "\\/"
  else if c = '\"' then "\\\""
  else if c.toNat < 0x20 ∨ c.toNat = 0x7f then "\\u" ++ hex4 c.toNat
  else String.mk [c]

/-- Modelled from the spec: the escaped, double-quoted form of a string. -/
def te_json_escape (s : String) : String :=
  "\"" ++ String.join (s.data.map te_json_escape_char) ++ "\""

/-- Decimal digit character of a value below 10. -/
def digitChar (n : Nat) : Char := Char.ofNat (48 + n)

/-- Fuel-driven most-significant-first decimal digits of a natural number;
`fuel` bounds the recursion depth (any `fuel > n` is enough). -/
def natToDigitsAux : Nat → Nat → List Char
  | 0, _ => []
  | fuel + 1, n =>
    if n < 10 then [digitChar n]
    else natToDigitsAux fuel (n / 10) ++ [digitChar (n % 10)]

/-- Decimal digits of a natural number, most significant first. -/
def natToDigits (n : Nat) : List Char := natToDigitsAux (n + 1) n

/-- Modelled from the spec: the exact base-10 decimal representation of a
signed integer, as emitted by `te_json_add_integer` (no locale formatting,
no separators). -/
def intRepr (n : Int) : String :=
  if n < 0 then "-" ++ String.mk (natToDigits n.natAbs)
  else String.mk (natToDigits n.natAbs)

/-- Modelled from the spec: `te_json_start_array`: separator if pending, push
an array frame with a clear pending-separator flag, emit `[`. -/
def te_json_start_array (ctx : TeJsonCtx) : TeJsonCtx :=
  { ctx with out := ctx.out ++ sepOf ctx.stack ++ "[",
             stack := ⟨.array, false, false⟩ :: ctx.stack }

/-- Modelled from the spec: `te_json_start_object`: separator if pending,
push an object frame with a clear pending-separator flag and the expect-key
flag set, emit `{`. -/
def te_json_start_object (ctx : TeJsonCtx) : TeJsonCtx :=
  { ctx with out := ctx.out ++ sepOf ctx.stack ++ "\x7b",
             stack := ⟨.object, false, true⟩ :: ctx.stack }

/-- Modelled from the spec: `te_json_end`: emit the matching closing
delimiter of the top frame and pop it, marking the parent frame's value as
done (pending-separator set, object back to awaiting a key); with an empty
stack the InvalidNesting condition is recorded on the context. -/
def te_json_end (ctx : TeJsonCtx) : TeJsonCtx :=
  match ctx.stack with
  | [] => { ctx with bad := true }
  | f :: rest =>
    { ctx with
        out := ctx.out ++ (match f.kind with | .array => "]" | .object => "\x7d"),
        stack := markValueDone rest }

/-- Modelled from the spec: `te_json_add_key`: separator if pending, the
escaped key followed by `:`; pending-separator cleared, now awaiting a
value. -/
def te_json_add_key (ctx : TeJsonCtx) (key : String) : TeJsonCtx :=
  { ctx with out := ctx.out ++ sepOf ctx.stack ++ te_json_escape key ++ ":",
             stack := match ctx.stack with
                      | [] => []
                      | f :: rest => ⟨f.kind, false, false⟩ :: rest }

/-- Modelled from the spec: `te_json_add_string` (the `"%s"` format of the
self-test amounts to emitting the argument string itself). -/
def te_json_add_string (ctx : TeJsonCtx) (s : String) : TeJsonCtx :=
  te_json_append_value ctx (te_json_escape s)

/-- Modelled from the spec: `te_json_add_integer`. -/
def te_json_add_integer (ctx : TeJsonCtx) (n : Int) : TeJsonCtx :=
  te_json_append_value ctx (intRepr n)

/-- Modelled from the spec: `te_json_add_key_str`: when the value is null
nothing at all is emitted for the pair; otherwise `add_key` then
`add_string`. -/
def te_json_add_key_str (ctx : TeJsonCtx) (key : String)
    (value : Option String) : TeJsonCtx :=
  match value with
  | none => ctx
  | some v => te_json_add_string (te_json_add_key ctx key) v

/-- Modelled from the spec: `te_json_add_array_str`: open an array, emit each
string in order (a null entry is skipped when `skip_null` is set and emits
the literal `null` otherwise), close the array. -/
def te_json_add_array_str (ctx : TeJsonCtx) (skip_null : Bool)
    (strs : List (Option String)) : TeJsonCtx :=
  te_json_end
    (strs.foldl
      (fun c os =>
        match os with
        | none => if skip_null then c else te_json_append_value c "null"
        | some s => te_json_add_string c s)
      (te_json_start_array ctx))

/-- Fuel-driven floor of the base-10 logarithm of a positive natural
number (0 for inputs below 10). -/
def log10Aux : Nat → Nat → Nat
  | 0, _ => 0
  | fuel + 1, n => if n < 10 then 0 else log10Aux fuel (n / 10) + 1

/-- Floor of the base-10 logarithm of a positive natural number. -/
def log10 (n : Nat) : Nat := log10Aux n n

/-- An idealized double-precision value: a sign-magnitude finite rational
`(-1)^neg * num / den` (with `den` positive by convention of every use),
or one of the three non-finite values. -/
inductive TeDouble where
  | finite (neg : Bool) (num : Nat) (den : Nat)
  | inf
  | neginf
  | nan
deriving DecidableEq, Repr

/-- Drop trailing `0` characters. -/
def stripTrailingZeros (ds : List Char) : List Char :=
  (ds.reverse.dropWhile (· = '0')).reverse

/-- Exponent suffix of the `%g` exponential form: a sign (always written,
`+` for non-negative) and at least two digits, e.g. `+06`. -/
def expSuffix (e : Int) : String :=
  (if e < 0 then "-" else "+") ++
  (if e.natAbs < 10 then "0" ++ String.mk [digitChar e.natAbs]
   else String.mk (natToDigits e.natAbs))

/-- Modelled from the spec: the general (`%g`-style) rendering of a finite
positive value `num / den` with `prec` significant digits: round to `prec`
significant digits, use exponential notation with a plus-signed two-digit
exponent when the decimal exponent `e` falls outside `[-4, prec)`, and trim
a redundant trailing `.0`/`.` and trailing fractional zeros. -/
def fmtGPos (num den prec : Nat) : String :=
  let e : Int := if num ≥ den then (log10 (num / den) : Int)
                 else -((log10 ((den - 1) / num) : Int) + 1)
  let k : Int := (prec : Int) - 1 - e
  let numS : Nat := if 0 ≤ k then num * 10 ^ k.toNat else num
  let denS : Nat := if 0 ≤ k then den else den * 10 ^ (-k).toNat
  let d0 : Nat := (2 * numS + denS) / (2 * denS)
  let d : Nat := if d0 = 10 ^ prec then 10 ^ (prec - 1) else d0
  let e : Int := if d0 = 10 ^ prec then e + 1 else e
  let digits : List Char := natToDigits d
  if e < -4 ∨ (prec : Int) ≤ e then
    String.mk (digits.take 1) ++
    (match stripTrailingZeros (digits.drop 1) with
     | [] => ""
     | frac => "." ++ String.mk frac) ++
    "e" ++ expSuffix e
  else if 0 ≤ e then
    String.mk (digits.take (e.toNat + 1)) ++
    (match stripTrailingZeros (digits.drop (e.toNat + 1)) with
     | [] => ""
     | frac => "." ++ String.mk frac)
  else
    "0." ++ String.mk (List.replicate ((-e).toNat - 1) '0') ++
    String.mk (stripTrailingZeros digits)

/-- Modelled from the spec: the text emitted by `te_json_add_float`: the
literal `null` for every non-finite value, and otherwise the `%g`-style
rendering with the given number of significant digits (sign first). -/
def te_json_float_fmt (x : TeDouble) (prec : Nat) : String :=
  match x with
  | .inf => "null"
  | .neginf => "null"
  | .nan => "null"
  | .finite neg num den =>
    if num = 0 then (if neg then "-0" else "0")
    else (if neg then "-" else "") ++ fmtGPos num den prec

/-- Modelled from the spec: `te_json_add_float`. -/
def te_json_add_float (ctx : TeJsonCtx) (x : TeDouble) (prec : Nat) :
    TeJsonCtx :=
  te_json_append_value ctx (te_json_float_fmt x prec)

/-- Modelled from the spec: `te_kvpair_init`: an empty ordered key/value
association list. -/
def te_kvpair_init : List (String × String) := []

/-- Modelled from the spec: `te_kvpair_add`: append a pair, preserving
insertion order (insertion order is significant). -/
def te_kvpair_add (kvp : List (String × String)) (k v : String) :
    List (String × String) :=
  kvp ++ [(k, v)]

/-- Modelled from the spec: `te_json_add_kvpair`: open an object, `add_key`
then `add_string` for each pair in order, close the object. -/
def te_json_add_kvpair (ctx : TeJsonCtx) (kvp : List (String × String)) :
    TeJsonCtx :=
  te_json_end
    (kvp.foldl (fun c kv => te_json_add_string (te_json_add_key c kv.1) kv.2)
      (te_json_start_object ctx))

/-- The `do_json_string` driver of the self-test. -/
def do_json_string (s : String) (ctx : TeJsonCtx) : TeJsonCtx :=
  te_json_add_string ctx s

/-- The `do_json_int` driver of the self-test. -/
def do_json_int (n : Int) (ctx : TeJsonCtx) : TeJsonCtx :=
  te_json_add_integer ctx n

/-- The `do_json_float` driver of the self-test (precision 6). -/
def do_json_float (x : TeDouble) (ctx : TeJsonCtx) : TeJsonCtx :=
  te_json_add_float ctx x 6

/-- The `do_json_array` driver of the self-test: an array of strings, the
null terminator of the C array replaced by the list length. -/
def do_json_array (strs : List String) (ctx : TeJsonCtx) : TeJsonCtx :=
  te_json_end (strs.foldl te_json_add_string (te_json_start_array ctx))

/-- The `do_json_object` driver of the self-test: `add_key` / `add_string`
alternating over the key/value pairs, inside one object. -/
def do_json_object (kvs : List (String × String)) (ctx : TeJsonCtx) :
    TeJsonCtx :=
  te_json_end
    (kvs.foldl (fun c kv => te_json_add_string (te_json_add_key c kv.1) kv.2)
      (te_json_start_object ctx))

/-- The `do_json_optkeys` driver of the self-test: `add_key_str` over pairs
whose values may be null. -/
def do_json_optkeys (kvs : List (String × Option String)) (ctx : TeJsonCtx) :
    TeJsonCtx :=
  te_json_end
    (kvs.foldl (fun c kv => te_json_add_key_str c kv.1 kv.2)
      (te_json_start_object ctx))

/-- The `do_json_kvpair` driver of the self-test: build a kvpair list with
`te_kvpair_add`, then serialize it with `te_json_add_kvpair`. -/
def do_json_kvpair (kvs : List (String × String)) (ctx : TeJsonCtx) :
    TeJsonCtx :=
  te_json_add_kvpair ctx
    (kvs.foldl (fun a kv => te_kvpair_add a kv.1 kv.2) te_kvpair_init)

/-- The `do_json_array_of_arrays` driver of the self-test: the null row
terminator and the 0 integer terminator of the C arrays replaced by list
lengths. -/
def do_json_array_of_arrays (rows : List (List Int)) (ctx : TeJsonCtx) :
    TeJsonCtx :=
  te_json_end
    (rows.foldl
      (fun c row =>
        te_json_end (row.foldl te_json_add_integer (te_json_start_array c)))
      (te_json_start_array ctx))

/-- The `do_json_array_of_str` driver of the self-test. -/
def do_json_array_of_str (skip_null : Bool) (strs : List (Option String))
    (ctx : TeJsonCtx) : TeJsonCtx :=
  te_json_add_array_str ctx skip_null strs

/-- A container start/end call, for reasoning about nesting sequences. -/
inductive NestOp where
  | startArr
  | startObj
  | endc
deriving DecidableEq, Repr

/-- Run a sequence of container start/end calls on a writer context. -/
def runNest (ops : List NestOp) (ctx : TeJsonCtx) : TeJsonCtx :=
  ops.foldl
    (fun c op =>
      match op with
      | .startArr => te_json_start_array c
      | .startObj => te_json_start_object c
      | .endc => te_json_end c)
    ctx

/-- Balance check of a start/end sequence against a starting depth: every
`end` must find an open container and the final depth must be zero. -/
def balancedAux : List NestOp → Nat → Bool
  | [], n => n == 0
  | .startArr :: r, n => balancedAux r (n + 1)
  | .startObj :: r, n => balancedAux r (n + 1)
  | .endc :: r, n =>
    match n with
    | 0 => false
    | m + 1 => balancedAux r m

/-- A balanced start/end sequence: depth never goes negative and returns to
zero. -/
def balanced (ops : List NestOp) : Bool := balancedAux ops 0

/-- Numeric value of a decimal digit character, if it is one. -/
def digitVal (c : Char) : Option Nat :=
  if 48 ≤ c.toNat ∧ c.toNat ≤ 57 then some (c.toNat - 48) else none

/-- Accumulating decimal parse of a digit list; fails on a non-digit. -/
def parseNatGo : List Char → Nat → Option Nat
  | [], acc => some acc
  | c :: rest, acc =>
    match digitVal c with
    | none => none
    | some d => parseNatGo rest (acc * 10 + d)

/-- A standard JSON natural-number parse: at least one digit, and no
leading zero unless the number is exactly `0`. -/
def parseJsonNat (cs : List Char) : Option Nat :=
  match cs with
  | [] => none
  | c :: rest =>
    if c = '0' then (if rest = [] then some 0 else none)
    else
      match digitVal c with
      | none => none
      | some d => parseNatGo rest d

/-- A standard JSON integer parse: an optional minus sign (not on zero)
followed by digits without leading zeros. -/
def parseJsonInt (s : String) : Option Int :=
  match s.data with
  | [] => none
  | c :: rest =>
    if c = '-' then
      (parseJsonNat rest).bind
        (fun m => if m = 0 then none else some (-(m : Int)))
    else (parseJsonNat (c :: rest)).map (fun m => (m : Int))

/-- Modelled from the spec: `te_json_add_array_str` at the C boundary: the
string array is a possibly-null pointer read index by index, `n` times; a
null pointer dereference or an out-of-bounds read fails instead of
returning a context. -/
def te_json_add_array_str_c (ctx : TeJsonCtx) (skip_null : Bool) (n : Nat)
    (strs : Option (List (Option String))) : Option TeJsonCtx :=
  ((List.range n).foldl
    (fun oc i =>
      oc.bind (fun c =>
        (strs.bind (fun l => l.get? i)).map
          (fun os =>
            match os with
            | none => if skip_null then c else te_json_append_value c "null"
            | some s => te_json_add_string c s)))
    (some (te_json_start_array ctx))).map te_json_end

/-- Concatenation of a list of already-rendered JSON elements, each with a
leading comma. -/
def catComma (items : List String) : String :=
  match items with
  | [] => ""
  | s :: rest => "," ++ s ++ catComma rest

/-- Comma-join of a list of already-rendered JSON elements. -/
def joinComma (items : List String) : String :=
  match items with
  | [] => ""
  | s :: rest => s ++ catComma rest

/-- The rendered `key:value` member of an object, both parts escaped. -/
def memberStr (k v : String) : String :=
  te_json_escape k ++ ":" ++ te_json_escape v

/-- Elements contributed by `te_json_add_array_str`: a null entry is dropped
when `skip_null` is set and renders as `null` otherwise. -/
def arrayStrItems (skip_null : Bool) (strs : List (Option String)) :
    List String :=
  strs.filterMap
    (fun os =>
      match os with
      | none => if skip_null then none else some "null"
      | some s => some (te_json_escape s))

/-- Separator-aware join: the text appended by emitting `items` in sequence
into a frame whose pending-separator flag starts as `p`. -/
def sepJoin (p : Bool) (items : List String) : String :=
  match items with
  | [] => ""
  | s :: rest => (if p then "," else "") ++ s ++ catComma rest

theorem sepJoin_false (items : List String) :
    sepJoin false items = joinComma items := by
  cases items <;> simp [sepJoin, joinComma, String.empty_append]

theorem sepJoin_true (l : List String) : sepJoin true l = catComma l := by
  cases l <;> simp [sepJoin, catComma]

theorem markValueDone_length (stack : List TeJsonLevel) :
    (markValueDone stack).length = stack.length := by
  cases stack <;> simp [markValueDone]

theorem add_key_string_eq (c : TeJsonCtx) (k v : String) :
    te_json_add_string (te_json_add_key c k) v =
      te_json_append_value c (memberStr k v) := by
  cases c with
  | mk out stack bad =>
    cases stack with
    | nil =>
      simp [te_json_add_string, te_json_add_key, te_json_append_value,
            memberStr, sepOf, markValueDone, String.append_assoc,
            String.append_empty, String.empty_append]
    | cons f rest =>
      simp [te_json_add_string, te_json_add_key, te_json_append_value,
            memberStr, sepOf, markValueDone, String.append_assoc,
            String.append_empty, String.empty_append]

theorem appendValues_spec (ps : List String) (out : String)
    (f : TeJsonLevel) (rest : List TeJsonLevel) (b : Bool) :
    List.foldl te_json_append_value ⟨out, f :: rest, b⟩ ps =
      ⟨out ++ sepJoin f.pending ps,
       ⟨f.kind, if ps.isEmpty then f.pending else true,
        if ps.isEmpty then f.expectKey else true⟩ :: rest, b⟩ := by
  induction ps generalizing out f with
  | nil => simp [sepJoin, String.append_empty]
  | cons s ps ih =>
    simp only [List.foldl_cons]
    have step : te_json_append_value ⟨out, f :: rest, b⟩ s =
        ⟨out ++ (if f.pending then "," else "") ++ s,
         (⟨f.kind, true, true⟩ : TeJsonLevel) :: rest, b⟩ := by
      simp [te_json_append_value, sepOf, markValueDone, String.append_assoc]
    rw [step, ih]
    cases ps with
    | nil =>
      simp [sepJoin, catComma, String.append_assoc, String.append_empty]
    | cons t ts =>
      simp [sepJoin, catComma, String.append_assoc]

theorem te_json_end_object (out : String) (p e : Bool)
    (rest : List TeJsonLevel) (b : Bool) :
    te_json_end ⟨out, ⟨.object, p, e⟩ :: rest, b⟩ =
      ⟨out ++ "\x7d", markValueDone rest, b⟩ := rfl

theorem te_json_end_array (out : String) (p e : Bool)
    (rest : List TeJsonLevel) (b : Bool) :
    te_json_end ⟨out, ⟨.array, p, e⟩ :: rest, b⟩ =
      ⟨out ++ "]", markValueDone rest, b⟩ := rfl

theorem do_json_object_eq (kvs : List (String × String)) :
    do_json_object kvs TE_JSON_INIT_STR =
      ⟨"\x7b" ++ joinComma (kvs.map (fun kv => memberStr kv.1 kv.2)) ++ "\x7d",
       [], false⟩ := by
  have hfun : (fun (c : TeJsonCtx) (kv : String × String) =>
      te_json_add_string (te_json_add_key c kv.1) kv.2) =
      (fun c kv => te_json_append_value c (memberStr kv.1 kv.2)) := by
    funext c kv
    exact add_key_string_eq c kv.1 kv.2
  have h0 : te_json_start_object TE_JSON_INIT_STR =
      ⟨"\x7b", [⟨.object, false, true⟩], false⟩ := rfl
  simp only [do_json_object, hfun, h0]
  rw [← List.foldl_map (fun kv : String × String => memberStr kv.1 kv.2)
        te_json_append_value]
  rw [appendValues_spec, te_json_end_object]
  simp [markValueDone, sepJoin_false, String.append_assoc]

theorem optkeys_foldl (kvs : List (String × Option String)) (c : TeJsonCtx) :
    List.foldl (fun c kv => te_json_add_key_str c kv.1 kv.2) c kvs =
      List.foldl te_json_append_value c
        (kvs.filterMap (fun kv => kv.2.map (fun v => memberStr kv.1 v))) := by
  induction kvs generalizing c with
  | nil => rfl
  | cons kv kvs ih =>
    cases hv : kv.2 with
    | none =>
      have hstep : te_json_add_key_str c kv.1 kv.2 = c := by
        rw [hv]
        rfl
      have hfm : List.filterMap
          (fun kv : String × Option String =>
            Option.map (fun v => memberStr kv.1 v) kv.2) (kv :: kvs) =
          List.filterMap
            (fun kv : String × Option String =>
              Option.map (fun v => memberStr kv.1 v) kv.2) kvs := by
        simp [List.filterMap_cons, hv]
      simp only [List.foldl_cons, hstep, hfm]
      exact ih c
    | some v =>
      have hstep : te_json_add_key_str c kv.1 kv.2 =
          te_json_append_value c (memberStr kv.1 v) := by
        rw [hv]
        exact add_key_string_eq c kv.1 v
      have hfm : List.filterMap
          (fun kv : String × Option String =>
            Option.map (fun v => memberStr kv.1 v) kv.2) (kv :: kvs) =
          memberStr kv.1 v ::
            List.filterMap
              (fun kv : String × Option String =>
                Option.map (fun v => memberStr kv.1 v) kv.2) kvs := by
        simp [List.filterMap_cons, hv]
      simp only [List.foldl_cons, hstep, hfm]
      exact ih _

theorem do_json_optkeys_eq (kvs : List (String × Option String)) :
    do_json_optkeys kvs TE_JSON_INIT_STR =
      ⟨"\x7b" ++
         joinComma (kvs.filterMap (fun kv => kv.2.map (fun v => memberStr kv.1 v))) ++
       "\x7d", [], false⟩ := by
  have h0 : te_json_start_object TE_JSON_INIT_STR =
      ⟨"\x7b", [⟨.object, false, true⟩], false⟩ := rfl
  simp only [do_json_optkeys, h0, optkeys_foldl]
  rw [appendValues_spec, te_json_end_object]
  simp [markValueDone, sepJoin_false, String.append_assoc]

theorem array_str_foldl (strs : List (Option String)) (skip_null : Bool)
    (c : TeJsonCtx) :
    List.foldl
      (fun c os =>
        match os with
        | none => if skip_null then c else te_json_append_value c "null"
        | some s => te_json_add_string c s)
      c strs =
      List.foldl te_json_append_value c (arrayStrItems skip_null strs) := by
  induction strs generalizing c with
  | nil => rfl
  | cons os strs ih =>
    cases os with
    | none =>
      cases skip_null with
      | false =>
        simp only [List.foldl_cons, arrayStrItems, List.filterMap_cons]
        exact ih _
      | true =>
        simp only [List.foldl_cons, arrayStrItems, List.filterMap_cons]
        exact ih _
    | some s =>
      simp only [List.foldl_cons, arrayStrItems, List.filterMap_cons,
                 te_json_add_string]
      exact ih _

theorem te_json_add_array_str_eq (skip_null : Bool)
    (strs : List (Option String)) :
    te_json_add_array_str TE_JSON_INIT_STR skip_null strs =
      ⟨"[" ++ joinComma (arrayStrItems skip_null strs) ++ "]", [], false⟩ := by
  have h0 : te_json_start_array TE_JSON_INIT_STR =
      ⟨"[", [⟨.array, false, false⟩], false⟩ := rfl
  simp only [te_json_add_array_str, h0, array_str_foldl]
  rw [appendValues_spec, te_json_end_array]
  simp [markValueDone, sepJoin_false, String.append_assoc]

theorem kvpair_build (kvs : List (String × String))
    (acc : List (String × String)) :
    List.foldl (fun a kv => te_kvpair_add a kv.1 kv.2) acc kvs = acc ++ kvs := by
  induction kvs generalizing acc with
  | nil => simp
  | cons kv kvs ih =>
    rw [List.foldl_cons, ih]
    simp [te_kvpair_add]

theorem te_json_add_kvpair_eq (kvp : List (String × String)) :
    te_json_add_kvpair TE_JSON_INIT_STR kvp =
      ⟨"\x7b" ++ joinComma (kvp.map (fun kv => memberStr kv.1 kv.2)) ++ "\x7d",
       [], false⟩ := by
  have hfun : (fun (c : TeJsonCtx) (kv : String × String) =>
      te_json_add_string (te_json_add_key c kv.1) kv.2) =
      (fun c kv => te_json_append_value c (memberStr kv.1 kv.2)) := by
    funext c kv
    exact add_key_string_eq c kv.1 kv.2
  have h0 : te_json_start_object TE_JSON_INIT_STR =
      ⟨"\x7b", [⟨.object, false, true⟩], false⟩ := rfl
  simp only [te_json_add_kvpair, hfun, h0]
  rw [← List.foldl_map (fun kv : String × String => memberStr kv.1 kv.2)
        te_json_append_value]
  rw [appendValues_spec, te_json_end_object]
  simp [markValueDone, sepJoin_false, String.append_assoc]

theorem do_json_kvpair_eq (kvs : List (String × String)) :
    do_json_kvpair kvs TE_JSON_INIT_STR =
      ⟨"\x7b" ++ joinComma (kvs.map (fun kv => memberStr kv.1 kv.2)) ++ "\x7d",
       [], false⟩ := by
  simp only [do_json_kvpair, te_kvpair_init, kvpair_build, List.nil_append]
  exact te_json_add_kvpair_eq kvs

theorem te_json_start_array_bad (c : TeJsonCtx) :
    (te_json_start_array c).bad = c.bad := rfl

theorem te_json_start_object_bad (c : TeJsonCtx) :
    (te_json_start_object c).bad = c.bad := rfl

theorem te_json_end_bad (c : TeJsonCtx) (h : c.bad = true) :
    (te_json_end c).bad = true := by
  cases c with
  | mk out stack bad =>
    cases stack <;> simp_all [te_json_end]

theorem runNest_bad (ops : List NestOp) (ctx : TeJsonCtx)
    (h : ctx.bad = true) : (runNest ops ctx).bad = true := by
  induction ops generalizing ctx with
  | nil => exact h
  | cons op ops ih =>
    cases op with
    | startArr => exact ih _ (by rw [te_json_start_array_bad]; exact h)
    | startObj => exact ih _ (by rw [te_json_start_object_bad]; exact h)
    | endc => exact ih _ (te_json_end_bad _ h)

theorem runNest_balancedAux (ops : List NestOp) (ctx : TeJsonCtx)
    (h : ctx.bad = false) :
    (((runNest ops ctx).bad = false ∧ current_level (runNest ops ctx) = 0) ↔
      balancedAux ops (current_level ctx) = true) := by
  induction ops generalizing ctx with
  | nil =>
    simp [runNest, balancedAux, h]
  | cons op ops ih =>
    cases op with
    | startArr =>
      have hrun : runNest (.startArr :: ops) ctx =
          runNest ops (te_json_start_array ctx) := rfl
      have hlev : current_level (te_json_start_array ctx) =
          current_level ctx + 1 := by
        simp [te_json_start_array, current_level]
      rw [hrun, ih _ (by rw [te_json_start_array_bad]; exact h), hlev]
      rfl
    | startObj =>
      have hrun : runNest (.startObj :: ops) ctx =
          runNest ops (te_json_start_object ctx) := rfl
      have hlev : current_level (te_json_start_object ctx) =
          current_level ctx + 1 := by
        simp [te_json_start_object, current_level]
      rw [hrun, ih _ (by rw [te_json_start_object_bad]; exact h), hlev]
      rfl
    | endc =>
      have hrun : runNest (.endc :: ops) ctx =
          runNest ops (te_json_end ctx) := rfl
      rw [hrun]
      cases hs : ctx.stack with
      | nil =>
        have hend : te_json_end ctx = { ctx with bad := true } := by
          cases ctx with
          | mk out stack bad => simp_all [te_json_end]
        have hb : (runNest ops (te_json_end ctx)).bad = true := by
          apply runNest_bad
          rw [hend]
        have hl : current_level ctx = 0 := by
          simp [current_level, hs]
        rw [hl]
        simp [balancedAux, hb]
      | cons f rest =>
        have hend : (te_json_end ctx).bad = false ∧
            current_level (te_json_end ctx) = rest.length := by
          cases ctx with
          | mk out stack bad =>
            simp_all [te_json_end, current_level, markValueDone_length]
        have hl : current_level ctx = rest.length + 1 := by
          simp [current_level, hs]
        rw [ih _ hend.1, hend.2, hl]
        rfl

theorem digitVal_digitChar (d : Nat) (h : d < 10) :
    digitVal (digitChar d) = some d := by
  interval_cases d <;> rfl

theorem parseNatGo_spec (fuel : Nat) :
    ∀ n acc, n < fuel →
      parseNatGo (natToDigitsAux fuel n) acc =
        some (acc * 10 ^ (natToDigitsAux fuel n).length + n) := by
  induction fuel with
  | zero =>
    intro n acc h
    omega
  | succ fuel ih =>
    intro n acc h
    by_cases hn : n < 10
    · simp only [natToDigitsAux, if_pos hn]
      simp [parseNatGo, digitVal_digitChar n hn]
    · simp only [natToDigitsAux, if_neg hn]
      have hlt : n / 10 < fuel := by omega
      have hrec := ih (n / 10) acc hlt
      have hsplit : ∀ (cs : List Char) (c : Char) (a : Nat),
          parseNatGo (cs ++ [c]) a =
            (parseNatGo cs a).bind
              (fun m => (digitVal c).map (fun d => m * 10 + d)) := by
        intro cs c
        induction cs with
        | nil =>
          intro a
          simp [parseNatGo]
          cases digitVal c <;> simp [parseNatGo]
        | cons x xs ihx =>
          intro a
          simp only [List.cons_append, parseNatGo]
          cases digitVal x <;> simp [ihx]
      rw [hsplit, hrec]
      have hmod : n % 10 < 10 := Nat.mod_lt _ (by omega)
      simp [digitVal_digitChar _ hmod, List.length_append, pow_succ]
      ring_nf
      have : acc * 10 ^ (natToDigitsAux fuel (n / 10)).length * 10 +
          (n / 10) * 10 + n % 10 =
          acc * (10 ^ (natToDigitsAux fuel (n / 10)).length * 10) + n := by
        have := Nat.div_add_mod n 10
        ring_nf
        omega
      omega

theorem natToDigitsAux_head (fuel : Nat) :
    ∀ n, 0 < n → n < fuel →
      ∃ d rest, natToDigitsAux fuel n = digitChar d :: rest ∧ 0 < d ∧ d < 10 := by
  induction fuel with
  | zero =>
    intro n h1 h2
    omega
  | succ fuel ih =>
    intro n h1 h2
    by_cases hn : n < 10
    · refine ⟨n, [], ?_, h1, hn⟩
      simp [natToDigitsAux, if_pos hn]
    · have hlt : n / 10 < fuel := by omega
      have hpos : 0 < n / 10 := by
        have : 10 ≤ n := by omega
        exact Nat.div_pos this (by omega)
      obtain ⟨d, rest, heq, hd0, hd10⟩ := ih (n / 10) hpos hlt
      refine ⟨d, rest ++ [digitChar (n % 10)], ?_, hd0, hd10⟩
      simp [natToDigitsAux, if_neg hn, heq]

theorem parseJsonNat_natToDigits (n : Nat) :
    parseJsonNat (natToDigits n) = some n := by
  cases n with
  | zero => rfl
  | succ m =>
    obtain ⟨d, rest, heq, hd0, hd10⟩ :=
      natToDigitsAux_head (m + 2) (m + 1) (Nat.succ_pos m) (by omega)
    have hgo : parseNatGo (natToDigits (m + 1)) 0 = some (m + 1) := by
      have := parseNatGo_spec (m + 2) (m + 1) 0 (by omega)
      simpa [natToDigits] using this
    have hne : digitChar d ≠ '0' := by
      interval_cases d <;> decide
    have hdv : digitVal (digitChar d) = some d := digitVal_digitChar d hd10
    have hgo2 : parseNatGo rest d = some (m + 1) := by
      have : parseNatGo (digitChar d :: rest) 0 = some (m + 1) := by
        rw [show digitChar d :: rest = natToDigits (m + 1) from
              (by rw [natToDigits, heq])]
        exact hgo
      simpa [parseNatGo, hdv] using this
    rw [natToDigits, heq]
    simp [parseJsonNat, hne, hdv, hgo2]

theorem parseJsonInt_intRepr (n : Int) : parseJsonInt (intRepr n) = some n := by
  by_cases hneg : n < 0
  · have hm : (n.natAbs : Int) = -n := by omega
    have hm0 : n.natAbs ≠ 0 := by omega
    have hdata : (intRepr n).data = '-' :: natToDigits n.natAbs := by
      simp [intRepr, if_pos hneg, String.data_append]
    have hval : -((n.natAbs : Int)) = n := by omega
    rw [parseJsonInt, hdata]
    simp [parseJsonNat_natToDigits, hm0, hval]
    rw [abs_of_neg hneg]
    ring
  · have h0 : 0 ≤ n := by omega
    cases hm : n.natAbs with
    | zero =>
      have : n = 0 := by omega
      subst this
      rfl
    | succ m =>
      obtain ⟨d, rest, heq, hd0, hd10⟩ :=
        natToDigitsAux_head (m + 2) (m + 1) (Nat.succ_pos m) (by omega)
      have hdata : (intRepr n).data = natToDigits (m + 1) := by
        simp [intRepr, if_neg hneg, hm]
      have hne : digitChar d ≠ '-' := by
        interval_cases d <;> decide
      have hpn : parseJsonNat (natToDigits (m + 1)) = some (m + 1) :=
        parseJsonNat_natToDigits (m + 1)
      rw [parseJsonInt, hdata, natToDigits, heq]
      rw [natToDigits, heq] at hpn
      simp [hne, hpn]
      omega

/-- C1: a comma is emitted before an element exactly when the
pending-separator flag of the current frame is set (and never at top
level); closing a nested container sets the parent frame's
pending-separator flag; and the nested-array driver on the rows `[1,2]`
and `[3,4]` serializes exactly as `[[1,2],[3,4]]`, with a comma between
the closed sub-containers and none before the first element of any
container. -/
theorem claim_C1 :
    (∀ (out : String) (f : TeJsonLevel) (rest : List TeJsonLevel) (b : Bool)
       (payload : String),
       (te_json_append_value ⟨out, f :: rest, b⟩ payload).out =
         out ++ (if f.pending then "," else "") ++ payload) ∧
    (∀ (out : String) (b : Bool) (payload : String),
       (te_json_append_value ⟨out, [], b⟩ payload).out = out ++ payload) ∧
    (∀ (out : String) (f g : TeJsonLevel) (rest : List TeJsonLevel) (b : Bool),
       (te_json_end ⟨out, f :: g :: rest, b⟩).stack =
         ⟨g.kind, true, true⟩ :: rest) ∧
    ((do_json_array_of_arrays [[1, 2], [3, 4]] TE_JSON_INIT_STR).out =
       "[[1,2],[3,4]]" ∧
     (do_json_array_of_arrays [[1, 2], [3, 4]] TE_JSON_INIT_STR).bad = false ∧
     current_level (do_json_array_of_arrays [[1, 2], [3, 4]] TE_JSON_INIT_STR) =
       0) := by
  refine ⟨fun out f rest b payload => rfl, ?_, fun out f g rest b => rfl,
          by decide⟩
  intro out b payload
  simp [te_json_append_value, sepOf, String.append_empty]

/-- C2: for every sequence of `start_array`, `start_object` and `end` calls
on a fresh writer context, the run leaves no InvalidNesting error and a
zero nesting depth exactly when the sequence is balanced; every unbalanced
sequence (an `end` on an empty stack, or finishing with a container still
open) is detectable through the error flag or the nonzero depth. -/
theorem claim_C2 (ops : List NestOp) :
    ((runNest ops TE_JSON_INIT_STR).bad = false ∧
      current_level (runNest ops TE_JSON_INIT_STR) = 0) ↔
      balanced ops = true := by
  have h := runNest_balancedAux ops TE_JSON_INIT_STR rfl
  simpa [balanced, current_level, TE_JSON_INIT_STR] using h

/-- C3: every emitted string is double-quoted with each character escaped
per class: the five short escapes for backspace, form-feed, newline,
carriage return and tab; `\u00XX` with lowercase 4-digit hex for every
other character below 0x20 and for 0x7F; `\\`, `\/` and `\"` for
backslash, slash and double quote; pass-through otherwise; the empty
string emits `""`, and the twelve-byte test vector emits exactly the
escaped form fixed by the self-test. -/
theorem claim_C3 :
    (∀ s : String,
       (do_json_string s TE_JSON_INIT_STR).out =
         "\"" ++ String.join (s.data.map te_json_escape_char) ++ "\"") ∧
    (∀ c : Char, c.toNat < 0x20 → c ≠ '\x08' → c ≠ '\x0c' → c ≠ '\n' →
       c ≠ '\x0d' → c ≠ '\t' →
       te_json_escape_char c = "\\u" ++ hex4 c.toNat) ∧
    (∀ c : Char, 0x20 ≤ c.toNat → c.toNat ≠ 0x7f → c ≠ '\\' → c ≠ '/' →
       c ≠ '\"' → te_json_escape_char c = String.mk [c]) ∧
    (te_json_escape_char '\x08' = "\\b" ∧
     te_json_escape_char '\x0c' = "\\f" ∧
     te_json_escape_char '\n' = "\\n" ∧
     te_json_escape_char '\x0d' = "\\r" ∧
     te_json_escape_char '\t' = "\\t" ∧
     te_json_escape_char '\x01' = "\\u0001" ∧
     te_json_escape_char '\x07' = "\\u0007" ∧
     te_json_escape_char '\x0b' = "\\u000b" ∧
     te_json_escape_char '\x7f' = "\\u007f" ∧
     te_json_escape_char '\\' = "\\\\" ∧
     te_json_escape_char '/' = "\\/" ∧
     te_json_escape_char '\"' = "\\\"" ∧
     te_json_escape_char 'a' = "a" ∧
     (do_json_string "" TE_JSON_INIT_STR).out = "\"\"" ∧
     (do_json_string "\x01\x07\x08\x0c\n\r\t\x0b\\/\"\x7f"
        TE_JSON_INIT_STR).out =
       "\"\\u0001\\u0007\\b\\f\\n\\r\\t\\u000b\\\\\\/\\\"\\u007f\"") := by
  refine ⟨?_, ?_, ?_, by decide⟩
  · intro s
    simp [do_json_string, te_json_add_string, te_json_append_value, sepOf,
          te_json_escape, TE_JSON_INIT_STR, String.empty_append]
  · intro c h hb hf hn hr ht
    have hbs : c ≠ '\\' := by
      intro hc
      subst hc
      exact absurd h (by decide)
    have hsl : c ≠ '/' := by
      intro hc
      subst hc
      exact absurd h (by decide)
    have hq : c ≠ '\"' := by
      intro hc
      subst hc
      exact absurd h (by decide)
    simp [te_json_escape_char, hb, hf, hn, hr, ht, hbs, hsl, hq, h]
  · intro c h h7 hbs hsl hq
    have hb : c ≠ '\x08' := by
      intro hc
      subst hc
      exact absurd h (by decide)
    have hf : c ≠ '\x0c' := by
      intro hc
      subst hc
      exact absurd h (by decide)
    have hn : c ≠ '\n' := by
      intro hc
      subst hc
      exact absurd h (by decide)
    have hr : c ≠ '\x0d' := by
      intro hc
      subst hc
      exact absurd h (by decide)
    have ht : c ≠ '\t' := by
      intro hc
      subst hc
      exact absurd h (by decide)
    have hcond : ¬(c.toNat < 0x20 ∨ c.toNat = 0x7f) := by
      push_neg
      exact ⟨by omega, h7⟩
    simp [te_json_escape_char, hb, hf, hn, hr, ht, hbs, hsl, hq, hcond]

/-- C3 witness: the universal per-class mapping clauses of `claim_C3`
instantiated at the concrete characters 0x05 (a control character without
a short escape) and `z` (an unescaped character). -/
theorem claim_C3_witness :
    te_json_escape_char '\x05' = "\\u" ++ hex4 ('\x05').toNat ∧
    te_json_escape_char 'z' = String.mk ['z'] :=
  ⟨claim_C3.2.1 '\x05' (by decide) (by decide) (by decide) (by decide)
     (by decide) (by decide),
   claim_C3.2.2.1 'z' (by decide) (by decide) (by decide) (by decide)
     (by decide)⟩

/-- C4: `add_float` emits the literal `null` for every non-finite argument
at every precision; for the finite test values at precision 6 it emits the
trimmed `%g`-style renderings: `0.0` gives `0`, `0.5` gives `0.5`, `-1.0`
gives `-1`, `1e6` gives `1e+06`, and positive infinity and NaN give
`null`. -/
theorem claim_C4 :
    (∀ prec : Nat, te_json_float_fmt TeDouble.inf prec = "null") ∧
    (∀ prec : Nat, te_json_float_fmt TeDouble.neginf prec = "null") ∧
    (∀ prec : Nat, te_json_float_fmt TeDouble.nan prec = "null") ∧
    ((do_json_float (.finite false 0 1) TE_JSON_INIT_STR).out = "0" ∧
     (do_json_float (.finite false 1 2) TE_JSON_INIT_STR).out = "0.5" ∧
     (do_json_float (.finite true 1 1) TE_JSON_INIT_STR).out = "-1" ∧
     (do_json_float (.finite false 1000000 1) TE_JSON_INIT_STR).out =
       "1e+06" ∧
     (do_json_float .inf TE_JSON_INIT_STR).out = "null" ∧
     (do_json_float .nan TE_JSON_INIT_STR).out = "null" ∧
     current_level (do_json_float (.finite false 1 2) TE_JSON_INIT_STR) = 0) :=
  ⟨fun _ => rfl, fun _ => rfl, fun _ => rfl, by decide⟩

/-- C5: `add_key_str` emits nothing at all for a null-valued pair (never a
JSON `null`) and behaves as `add_key` followed by `add_string` otherwise:
the object built by the optional-keys driver is exactly the brace-wrapped
comma-join of the members of the non-null pairs in input order; a list of
pairs that are all null-valued emits the empty object, and the self-test
vectors are reproduced. -/
theorem claim_C5 :
    (∀ kvs : List (String × Option String),
       (do_json_optkeys kvs TE_JSON_INIT_STR).out =
         "\x7b" ++
           joinComma
             (kvs.filterMap (fun kv => kv.2.map (fun v => memberStr kv.1 v))) ++
         "\x7d") ∧
    (∀ kvs : List (String × Option String),
       current_level (do_json_optkeys kvs TE_JSON_INIT_STR) = 0 ∧
       (do_json_optkeys kvs TE_JSON_INIT_STR).bad = false) ∧
    (∀ keys : List String,
       (do_json_optkeys (keys.map (fun k => (k, none))) TE_JSON_INIT_STR).out =
         "\x7b\x7d") ∧
    ((do_json_optkeys [("c", none)] TE_JSON_INIT_STR).out = "\x7b\x7d" ∧
     (do_json_optkeys [("a", some "b"), ("c", some "\n")] TE_JSON_INIT_STR).out =
       "\x7b\"a\":\"b\",\"c\":\"\\n\"\x7d" ∧
     (do_json_optkeys [("a", none), ("c", some "\n")] TE_JSON_INIT_STR).out =
       "\x7b\"c\":\"\\n\"\x7d") := by
  refine ⟨?_, ?_, ?_, by decide⟩
  · intro kvs
    rw [do_json_optkeys_eq]
  · intro kvs
    rw [do_json_optkeys_eq]
    exact ⟨rfl, rfl⟩
  · intro keys
    rw [do_json_optkeys_eq]
    have hnil : List.filterMap
        (fun kv : String × Option String =>
          Option.map (fun v => memberStr kv.1 v) kv.2)
        (keys.map (fun k => (k, none))) = [] := by
      induction keys with
      | nil => rfl
      | cons k keys ih => simp [ih]
    rw [hnil]
    rfl

/-- C6: `add_array_str` opens an array, iterates the possibly-null strings
in order and closes the array, where a null entry is omitted entirely when
`skip_null` is set and serializes as the literal `null` otherwise, so the
output is exactly the bracket-wrapped comma-join of the surviving elements
in input order; the self-test vectors are reproduced. -/
theorem claim_C6 :
    (∀ (skip_null : Bool) (strs : List (Option String)),
       (do_json_array_of_str skip_null strs TE_JSON_INIT_STR).out =
         "[" ++ joinComma (arrayStrItems skip_null strs) ++ "]") ∧
    (∀ (skip_null : Bool) (strs : List (Option String)),
       current_level (do_json_array_of_str skip_null strs TE_JSON_INIT_STR) =
         0 ∧
       (do_json_array_of_str skip_null strs TE_JSON_INIT_STR).bad = false) ∧
    ((do_json_array_of_str true [some "abc", some "def"] TE_JSON_INIT_STR).out =
       "[\"abc\",\"def\"]" ∧
     (do_json_array_of_str true [none] TE_JSON_INIT_STR).out = "[]" ∧
     (do_json_array_of_str true [none, some "abc"] TE_JSON_INIT_STR).out =
       "[\"abc\"]" ∧
     (do_json_array_of_str false [none] TE_JSON_INIT_STR).out = "[null]" ∧
     (do_json_array_of_str false [some "abc", none] TE_JSON_INIT_STR).out =
       "[\"abc\",null]") := by
  refine ⟨?_, ?_, by decide⟩
  · intro skip_null strs
    rw [do_json_array_of_str, te_json_add_array_str_eq]
  · intro skip_null strs
    rw [do_json_array_of_str, te_json_add_array_str_eq]
    exact ⟨rfl, rfl⟩

/-- C7: the kvpair adapter opens an object, performs `add_key` then
`add_string` for each pair of the ordered association list, and closes the
object, so the output is exactly the brace-wrapped comma-join of the
members in insertion order; an empty association list emits the empty
object and a two-pair list preserves insertion order. -/
theorem claim_C7 :
    (∀ kvs : List (String × String),
       (do_json_kvpair kvs TE_JSON_INIT_STR).out =
         "\x7b" ++ joinComma (kvs.map (fun kv => memberStr kv.1 kv.2)) ++
           "\x7d") ∧
    (∀ kvs : List (String × String),
       current_level (do_json_kvpair kvs TE_JSON_INIT_STR) = 0 ∧
       (do_json_kvpair kvs TE_JSON_INIT_STR).bad = false) ∧
    ((do_json_kvpair [] TE_JSON_INIT_STR).out = "\x7b\x7d" ∧
     (do_json_kvpair [("a", "b")] TE_JSON_INIT_STR).out =
       "\x7b\"a\":\"b\"\x7d" ∧
     (do_json_kvpair [("a", "b"), ("c", "d")] TE_JSON_INIT_STR).out =
       "\x7b\"a\":\"b\",\"c\":\"d\"\x7d") := by
  refine ⟨?_, ?_, by decide⟩
  · intro kvs
    rw [do_json_kvpair_eq]
  · intro kvs
    rw [do_json_kvpair_eq]
    exact ⟨rfl, rfl⟩

/-- C8: for every integer, `add_integer` emits the exact base-10 decimal
representation, which a standard JSON number parser (optional minus sign,
digits, no leading zeros) parses back to exactly that integer; the
self-test values 0, `INT_MAX` and -1 emit `0`, `2147483647` and `-1`. -/
theorem claim_C8 :
    (∀ n : Int,
       parseJsonInt ((do_json_int n TE_JSON_INIT_STR).out) = some n) ∧
    ((do_json_int 0 TE_JSON_INIT_STR).out = "0" ∧
     (do_json_int 2147483647 TE_JSON_INIT_STR).out = "2147483647" ∧
     (do_json_int (-1) TE_JSON_INIT_STR).out = "-1" ∧
     current_level (do_json_int 0 TE_JSON_INIT_STR) = 0 ∧
     (do_json_int 0 TE_JSON_INIT_STR).bad = false) := by
  refine ⟨?_, by decide⟩
  intro n
  have hout : (do_json_int n TE_JSON_INIT_STR).out = intRepr n := by
    simp [do_json_int, te_json_add_integer, te_json_append_value, sepOf,
          TE_JSON_INIT_STR, String.empty_append]
  rw [hout]
  exact parseJsonInt_intRepr n

/-- C9: inside an object keys and values strictly alternate starting with a
key: immediately after `start_object` the top frame expects a key, after
`add_key` it expects a value, and after a completed value it expects a key
again; an alternating `add_key`/`add_string` sequence between
`start_object` and `end` produces exactly the brace-wrapped comma-join of
its members, as in the self-test vectors. -/
theorem claim_C9 :
    (∀ ctx : TeJsonCtx,
       (te_json_start_object ctx).stack.head? =
         some ⟨TeJsonKind.object, false, true⟩) ∧
    (∀ (out : String) (f : TeJsonLevel) (rest : List TeJsonLevel) (b : Bool)
       (key : String),
       (te_json_add_key ⟨out, f :: rest, b⟩ key).stack.head? =
         some ⟨f.kind, false, false⟩) ∧
    (∀ (out : String) (f : TeJsonLevel) (rest : List TeJsonLevel) (b : Bool)
       (s : String),
       (te_json_add_string ⟨out, f :: rest, b⟩ s).stack.head? =
         some ⟨f.kind, true, true⟩) ∧
    (∀ kvs : List (String × String),
       (do_json_object kvs TE_JSON_INIT_STR).out =
         "\x7b" ++ joinComma (kvs.map (fun kv => memberStr kv.1 kv.2)) ++
           "\x7d") ∧
    ((do_json_object [] TE_JSON_INIT_STR).out = "\x7b\x7d" ∧
     (do_json_object [("a", "b")] TE_JSON_INIT_STR).out =
       "\x7b\"a\":\"b\"\x7d" ∧
     (do_json_object [("a", "b"), ("c", "d")] TE_JSON_INIT_STR).out =
       "\x7b\"a\":\"b\",\"c\":\"d\"\x7d" ∧
     current_level (do_json_object [("a", "b"), ("c", "d")] TE_JSON_INIT_STR) =
       0) := by
  refine ⟨fun ctx => rfl, fun out f rest b key => rfl,
          fun out f rest b s => rfl, ?_, by decide⟩
  intro kvs
  rw [do_json_object_eq]

/-- C10: calling `add_array_str` with a zero element count and a null
strings pointer is safe: no element read ever happens, so the null pointer
is never dereferenced, and the output is exactly the empty array. -/
theorem claim_C10 :
    (∀ (skip_null : Bool) (ctx : TeJsonCtx),
       te_json_add_array_str_c ctx skip_null 0 none =
         some (te_json_end (te_json_start_array ctx))) ∧
    (te_json_add_array_str_c TE_JSON_INIT_STR true 0 none =
       some ⟨"[]", [], false⟩ ∧
     te_json_add_array_str_c TE_JSON_INIT_STR false 0 none =
       some ⟨"[]", [], false⟩) :=
  ⟨fun _ _ => rfl, by decide⟩
